import Mathlib

/-
Verification development for the Tachiyomi-TUI manga reader.

The embedding models the asynchronous content-delivery core of the
program: the two-tier page cache (src/backend/cache.rs), the background
task units and their terminal events (src/main.rs), the preload
scheduler, the search debouncer, and the navigation state machine
(src/ui/ui.rs).  Decoded images are abstracted to an arbitrary type V
(instantiated at Nat in the theorems); Rust HashMap values are modelled
as association lists with nodup keys, HashSet values as lists used for
membership, and the cache directory as a map from the rolling-hash
filename to the stored image value.
-/

set_option maxRecDepth 4000

namespace Tachiyomi

/-- Lookup in an association-list map, mirroring HashMap::get. -/
def map_find {K V : Type} [DecidableEq K] (m : List (K × V)) (k : K) : Option V :=
  match m with
  | [] => none
  | p :: rest => if p.1 = k then some p.2 else map_find rest k

/-- Removal of a key, mirroring HashMap::remove (extensionally: all entries
for the key disappear; under the nodup-keys invariant there is at most one). -/
def map_erase {K V : Type} [DecidableEq K] (m : List (K × V)) (k : K) : List (K × V) :=
  m.filter (fun p => p.1 ≠ k)

/-- Insertion with replacement, mirroring HashMap::insert. -/
def map_insert {K V : Type} [DecidableEq K] (m : List (K × V)) (k : K) (v : V) :
    List (K × V) :=
  map_erase m k ++ [(k, v)]

/-- Key list of an association-list map. -/
def map_keys {K V : Type} (m : List (K × V)) : List K :=
  m.map (fun p => p.1)

/-! ### The page cache (src/backend/cache.rs) -/

/-- Constant MAX_MEMORY_PAGES from cache.rs. -/
def MAX_MEMORY_PAGES : Nat := 50

/-- Constant MAX_DISK_CACHE_MB from cache.rs. -/
def MAX_DISK_CACHE_MB : Nat := 500

/-- UTF-8 encoding of one scalar value, mirroring how Rust str::bytes
iterates the UTF-8 bytes of the URL string. -/
def utf8_bytes_char (c : Char) : List Nat :=
  let n := c.toNat
  if n < 128 then [n]
  else if n < 2048 then [192 + n / 64, 128 + n % 64]
  else if n < 65536 then [224 + n / 4096, 128 + (n / 64) % 64, 128 + n % 64]
  else [240 + n / 262144, 128 + (n / 4096) % 64, 128 + (n / 64) % 64, 128 + n % 64]

/-- UTF-8 byte sequence of a string. -/
def str_bytes (s : String) : List Nat :=
  s.data.flatMap utf8_bytes_char

/-- Modulus of u128 arithmetic. -/
def U128 : Nat := 2 ^ 128

/-- Function md5_hash from cache.rs: a rolling hash over the UTF-8 bytes,
hash = sum of byte_i * 31^i in wrapping u128 arithmetic (the exponent is the
byte index cast to u32). -/
def md5_hash (s : String) : Nat :=
  (str_bytes s).enum.foldl
    (fun h p => (h + (p.2 * (31 ^ (p.1 % 2 ^ 32) % U128)) % U128) % U128) 0

/-- State of PageCacheInner from cache.rs.  The pages HashMap and the
chapter_urls HashMap are association lists; access_order is the Vec of
keys ordered from least- to most-recently touched; disk models the
contents of the cache directory as a map from the md5_hash filename to
the stored image value (the JPEG encode/decode round trip is treated as
value-preserving; codec-level lossiness is below this embedding, and the
byte-budget cleanup sweep is modelled separately over file metadata by
cleanup_old_cache below). -/
structure PageCacheInner (V : Type) where
  pages : List (String × V)
  access_order : List String
  chapter_urls : List (String × List String)
  disk : List (Nat × V)
deriving DecidableEq

/-- The freshly created cache: all maps empty (PageCache::new). -/
def empty_cache (V : Type) : PageCacheInner V :=
  ⟨[], [], [], []⟩

/-- Eviction step at the top of PageCacheInner::insert_memory: when the
page map holds at least MAX_MEMORY_PAGES entries, remove the entry named
by the first element of access_order from the map and drop that element. -/
def evict_if_full {V : Type} (s : PageCacheInner V) : PageCacheInner V :=
  if MAX_MEMORY_PAGES ≤ s.pages.length then
    match s.access_order.head? with
    | some oldest =>
        { s with pages := map_erase s.pages oldest,
                 access_order := s.access_order.tail }
    | none => s
  else s

/-- Function PageCacheInner::insert_memory: when the page map is full,
evict the entry named by the head of access_order, then move the inserted
url to the most-recent end of access_order and insert the image. -/
def insert_memory {V : Type} (s : PageCacheInner V) (url : String) (image : V) :
    PageCacheInner V :=
  { evict_if_full s with
    pages := map_insert (evict_if_full s).pages url image,
    access_order := (evict_if_full s).access_order.filter (fun k => k ≠ url) ++ [url] }

/-- Function PageCacheInner::load_from_disk: read and decode the file named
by the rolling hash of the url; in the model the stored value comes back. -/
def load_from_disk {V : Type} (s : PageCacheInner V) (url : String) : Option V :=
  map_find s.disk (md5_hash url)

/-- Function PageCacheInner::save_to_disk at the value level: write the
image under the rolling-hash filename.  The cleanup_old_cache call that
precedes the write only deletes files by byte-budget metadata and is
modelled separately below. -/
def save_to_disk {V : Type} (s : PageCacheInner V) (url : String) (image : V) :
    PageCacheInner V :=
  { s with disk := map_insert s.disk (md5_hash url) image }

/-- Function PageCache::get_page: a memory hit bumps the key to the
most-recent end of access_order; otherwise a disk hit is promoted into
memory through insert_memory; otherwise a miss.  Returns the result
together with the mutated cache. -/
def get_page {V : Type} (s : PageCacheInner V) (url : String) :
    Option V × PageCacheInner V :=
  match map_find s.pages url with
  | some image =>
      (some image,
       { s with access_order := s.access_order.filter (fun k => k ≠ url) ++ [url] })
  | none =>
      match load_from_disk s url with
      | some image => (some image, insert_memory s url image)
      | none => (none, s)

/-- Function PageCache::insert_page: write-through to disk, then into memory. -/
def insert_page {V : Type} (s : PageCacheInner V) (url : String) (image : V) :
    PageCacheInner V :=
  insert_memory (save_to_disk s url image) url image

/-- Function PageCache::has_page: existence in memory or on disk. -/
def has_page {V : Type} (s : PageCacheInner V) (url : String) : Bool :=
  match map_find s.pages url with
  | some _ => true
  | none => (load_from_disk s url).isSome

/-- Function PageCache::get_chapter_urls. -/
def get_chapter_urls {V : Type} (s : PageCacheInner V) (chapter_id : String) :
    Option (List String) :=
  map_find s.chapter_urls chapter_id

/-- Function PageCache::insert_chapter_urls. -/
def insert_chapter_urls {V : Type} (s : PageCacheInner V) (chapter_id : String)
    (urls : List String) : PageCacheInner V :=
  { s with chapter_urls := map_insert s.chapter_urls chapter_id urls }

/-- One externally visible page-cache operation: a lookup or an insertion. -/
inductive CacheOp (V : Type) where
  | get (url : String)
  | put (url : String) (image : V)
deriving DecidableEq

/-- Effect of one operation on the cache state. -/
def apply_op {V : Type} (s : PageCacheInner V) (op : CacheOp V) : PageCacheInner V :=
  match op with
  | CacheOp.get url => (get_page s url).2
  | CacheOp.put url image => insert_page s url image

/-- A sequence of page-cache operations run from a starting state. -/
def run_ops {V : Type} (ops : List (CacheOp V)) (s : PageCacheInner V) :
    PageCacheInner V :=
  ops.foldl apply_op s

/-- Structural invariant of the memory tier: access_order holds each key
once, it enumerates exactly the keys of the page map, and the map is
bounded by MAX_MEMORY_PAGES. -/
def cache_inv {V : Type} (s : PageCacheInner V) : Prop :=
  s.access_order.Nodup ∧ (map_keys s.pages).Nodup ∧
    s.access_order.Perm (map_keys s.pages) ∧
    s.pages.length ≤ MAX_MEMORY_PAGES

instance {V : Type} (s : PageCacheInner V) : Decidable (cache_inv s) := by
  unfold cache_inv; exact inferInstance

/-! ### Invariant lemmas for the memory tier -/

theorem map_keys_erase {K V : Type} [DecidableEq K] (m : List (K × V)) (k : K) :
    map_keys (map_erase m k) = (map_keys m).filter (fun x => x ≠ k) := by
  induction m with
  | nil => rfl
  | cons p rest ih =>
      by_cases hp : p.1 = k
      · simpa [map_erase, map_keys, hp] using ih
      · simpa [map_erase, map_keys, hp] using ih

theorem map_keys_append {K V : Type} (a b : List (K × V)) :
    map_keys (a ++ b) = map_keys a ++ map_keys b := by
  simp [map_keys]

theorem map_keys_insert {K V : Type} [DecidableEq K] (m : List (K × V)) (k : K) (v : V) :
    map_keys (map_insert m k v) = map_keys (map_erase m k) ++ [k] := by
  rw [map_insert, map_keys_append]; rfl

theorem mem_map_keys_of_find {K V : Type} [DecidableEq K] {m : List (K × V)} {k : K}
    {v : V} (h : map_find m k = some v) : k ∈ map_keys m := by
  induction m with
  | nil => simp [map_find] at h
  | cons p rest ih =>
      by_cases hp : p.1 = k
      · simp [map_keys, hp]
      · simp only [map_find, if_neg hp] at h
        exact List.mem_cons_of_mem _ (ih h)

theorem not_mem_filter_ne_self {α : Type} [DecidableEq α] (l : List α) (a : α) :
    a ∉ l.filter (fun x => x ≠ a) := by
  intro h
  simpa using (List.of_mem_filter h)

theorem filter_ne_of_not_mem {α : Type} [DecidableEq α] {l : List α} {a : α}
    (h : a ∉ l) : l.filter (fun x => x ≠ a) = l := by
  rw [List.filter_eq_self]
  intro x hx
  simp only [ne_eq, decide_eq_true_eq]
  exact fun hc => h (hc ▸ hx)

/-- Bumping a present key to the most-recent end keeps the order a nodup
enumeration of the same key set. -/
theorem touch_perm {α : Type} [DecidableEq α] {l : List α} (h : l.Nodup) {a : α}
    (ha : a ∈ l) : (l.filter (fun x => x ≠ a) ++ [a]).Perm l := by
  induction l with
  | nil => cases ha
  | cons b t ih =>
      rw [List.nodup_cons] at h
      by_cases hb : a = b
      · subst hb
        have hf : (a :: t).filter (fun x => x ≠ a) = t := by
          rw [List.filter_cons, if_neg (by simp)]
          exact filter_ne_of_not_mem h.1
        rw [hf]
        have hp : (t ++ [a]).Perm ([a] ++ t) := List.perm_append_comm
        exact hp
      · have hat : a ∈ t := by
          cases List.mem_cons.mp ha with
          | inl hc => exact absurd hc hb
          | inr hc => exact hc
        have hf : (b :: t).filter (fun x => x ≠ a) =
            b :: t.filter (fun x => x ≠ a) := by
          rw [List.filter_cons, if_pos]
          simp only [ne_eq, decide_eq_true_eq]
          exact fun hc => hb hc.symm
        rw [hf]
        exact (ih h.2 hat).cons b

theorem touch_nodup {α : Type} [DecidableEq α] {l : List α} (h : l.Nodup) (a : α) :
    (l.filter (fun x => x ≠ a) ++ [a]).Nodup := by
  rw [List.nodup_append]
  refine ⟨h.filter _, List.nodup_singleton a, ?_⟩
  intro x hx hx1
  rw [List.mem_singleton] at hx1
  exact not_mem_filter_ne_self _ _ (hx1 ▸ hx)

/-- The eviction step preserves the structural invariant and always leaves
the map strictly below the bound. -/
theorem evict_if_full_inv {V : Type} {s : PageCacheInner V} (h : cache_inv s) :
    cache_inv (evict_if_full s) ∧ (evict_if_full s).pages.length < MAX_MEMORY_PAGES := by
  obtain ⟨h1, h2, h3, h4⟩ := h
  by_cases h5 : MAX_MEMORY_PAGES ≤ s.pages.length
  · have hord : s.access_order.length = s.pages.length := by
      rw [h3.length_eq]
      exact List.length_map _ _
    have hpos : 0 < s.access_order.length := by
      rw [hord]
      exact lt_of_lt_of_le (by decide) h5
    obtain ⟨oldest, t, hot⟩ : ∃ oldest t, s.access_order = oldest :: t := by
      cases hx : s.access_order with
      | nil => rw [hx] at hpos; simp at hpos
      | cons a t => exact ⟨a, t, rfl⟩
    have hstep : evict_if_full s =
        { s with pages := map_erase s.pages oldest, access_order := t } := by
      simp [evict_if_full, h5, hot]
    rw [hot] at h1 h3
    have hont : oldest ∉ t := (List.nodup_cons.mp h1).1
    have htnd : t.Nodup := (List.nodup_cons.mp h1).2
    have hkeys : map_keys (map_erase s.pages oldest) =
        (map_keys s.pages).filter (fun x => x ≠ oldest) := map_keys_erase _ _
    have hperm : t.Perm ((map_keys s.pages).filter (fun x => x ≠ oldest)) := by
      have hp := h3.filter (fun x => decide (x ≠ oldest))
      have htf : (oldest :: t).filter (fun x => x ≠ oldest) = t := by
        have hc : (oldest :: t).filter (fun x => x ≠ oldest) =
            t.filter (fun x => x ≠ oldest) := by
          simp [List.filter_cons]
        rw [hc, List.filter_eq_self]
        intro a ha
        simp only [ne_eq, decide_eq_true_eq]
        exact fun hcon => hont (hcon ▸ ha)
      rwa [htf] at hp
    have hlen : (map_erase s.pages oldest).length = t.length := by
      have e1 : (map_erase s.pages oldest).length =
          (map_keys (map_erase s.pages oldest)).length :=
        (List.length_map _ _).symm
      rw [e1, hkeys]
      exact hperm.length_eq.symm
    have hlt : (map_erase s.pages oldest).length < MAX_MEMORY_PAGES := by
      have e2 : t.length + 1 = s.pages.length := by
        rw [← hord, hot]
        simp
      omega
    refine ⟨?_, ?_⟩
    · rw [hstep]
      refine ⟨htnd, ?_, ?_, ?_⟩
      · show (map_keys (map_erase s.pages oldest)).Nodup
        rw [hkeys]; exact h2.filter _
      · show t.Perm (map_keys (map_erase s.pages oldest))
        rw [hkeys]; exact hperm
      · exact le_of_lt hlt
    · rw [hstep]; exact hlt
  · have hstep : evict_if_full s = s := by simp [evict_if_full, h5]
    rw [hstep]
    exact ⟨⟨h1, h2, h3, h4⟩, lt_of_not_le h5⟩

/-- Function insert_memory preserves the structural invariant. -/
theorem insert_memory_inv {V : Type} {s : PageCacheInner V} (h : cache_inv s)
    (url : String) (image : V) : cache_inv (insert_memory s url image) := by
  obtain ⟨⟨h1, h2, h3, h4⟩, hlt⟩ := evict_if_full_inv h
  unfold insert_memory
  refine ⟨touch_nodup h1 url, ?_, ?_, ?_⟩
  · show (map_keys (map_insert (evict_if_full s).pages url image)).Nodup
    rw [map_keys_insert, map_keys_erase, List.nodup_append]
    refine ⟨h2.filter _, List.nodup_singleton url, ?_⟩
    intro x hx hx1
    rw [List.mem_singleton] at hx1
    exact not_mem_filter_ne_self _ _ (hx1 ▸ hx)
  · show ((evict_if_full s).access_order.filter (fun k => k ≠ url) ++ [url]).Perm
      (map_keys (map_insert (evict_if_full s).pages url image))
    rw [map_keys_insert, map_keys_erase]
    exact (h3.filter _).append_right [url]
  · show (map_insert (evict_if_full s).pages url image).length ≤ MAX_MEMORY_PAGES
    have hle : (map_erase (evict_if_full s).pages url).length ≤
        (evict_if_full s).pages.length := List.length_filter_le _ _
    simp only [map_insert, List.length_append, List.length_singleton]
    omega

/-- Function get_page preserves the structural invariant, on the memory-hit,
disk-promotion and miss paths alike. -/
theorem get_page_inv {V : Type} {s : PageCacheInner V} (h : cache_inv s)
    (url : String) : cache_inv (get_page s url).2 := by
  obtain ⟨h1, h2, h3, h4⟩ := h
  unfold get_page
  cases hf : map_find s.pages url with
  | some image =>
      simp only [hf]
      have hmem : url ∈ s.access_order :=
        h3.mem_iff.mpr (mem_map_keys_of_find hf)
      exact ⟨touch_nodup h1 url, h2, (touch_perm h1 hmem).trans h3, h4⟩
  | none =>
      simp only [hf]
      cases hd : load_from_disk s url with
      | some image =>
          simp only [hd]
          exact insert_memory_inv ⟨h1, h2, h3, h4⟩ url image
      | none =>
          simp only [hd]
          exact ⟨h1, h2, h3, h4⟩


/-- Function insert_page preserves the structural invariant (the disk
write does not touch the memory tier). -/
theorem insert_page_inv {V : Type} {s : PageCacheInner V} (h : cache_inv s)
    (url : String) (image : V) : cache_inv (insert_page s url image) := by
  have hd : cache_inv (save_to_disk s url image) := h
  exact insert_memory_inv hd url image

theorem apply_op_inv {V : Type} {s : PageCacheInner V} (h : cache_inv s)
    (op : CacheOp V) : cache_inv (apply_op s op) := by
  cases op with
  | get url => exact get_page_inv h url
  | put url image => exact insert_page_inv h url image

theorem run_ops_inv {V : Type} (ops : List (CacheOp V)) {s : PageCacheInner V}
    (h : cache_inv s) : cache_inv (run_ops ops s) := by
  induction ops generalizing s with
  | nil => exact h
  | cons op rest ih => exact ih (apply_op_inv h op)

theorem empty_cache_inv (V : Type) : cache_inv (empty_cache V) := by
  refine ⟨List.nodup_nil, List.nodup_nil, List.Perm.refl _, ?_⟩
  simp [empty_cache, MAX_MEMORY_PAGES]

/-- When an insertion removes a key from the page map, that key is the one
named by the head of access_order (the least-recently-touched key). -/
theorem insert_memory_evicts_head {V : Type} {s : PageCacheInner V}
    (h : cache_inv s) (url : String) (image : V) {k : String}
    (hk : k ∈ map_keys s.pages)
    (hk2 : k ∉ map_keys (insert_memory s url image).pages) :
    s.access_order.head? = some k := by
  obtain ⟨h1, h2, h3, h4⟩ := h
  have hins : map_keys (insert_memory s url image).pages =
      (map_keys (evict_if_full s).pages).filter (fun x => x ≠ url) ++ [url] := by
    show map_keys (map_insert (evict_if_full s).pages url image) = _
    rw [map_keys_insert, map_keys_erase]
  by_cases h5 : MAX_MEMORY_PAGES ≤ s.pages.length
  · have hord : s.access_order.length = s.pages.length := by
      rw [h3.length_eq]
      exact List.length_map _ _
    have hpos : 0 < s.access_order.length := by
      rw [hord]
      exact lt_of_lt_of_le (by decide) h5
    obtain ⟨oldest, t, hot⟩ : ∃ oldest t, s.access_order = oldest :: t := by
      cases hx : s.access_order with
      | nil => rw [hx] at hpos; simp at hpos
      | cons a t => exact ⟨a, t, rfl⟩
    have hstep : evict_if_full s =
        { s with pages := map_erase s.pages oldest, access_order := t } := by
      simp [evict_if_full, h5, hot]
    have hkeys1 : map_keys (evict_if_full s).pages =
        (map_keys s.pages).filter (fun x => x ≠ oldest) := by
      rw [hstep]
      exact map_keys_erase _ _
    by_cases hko : k = oldest
    · rw [hot, hko]; rfl
    · exfalso
      apply hk2
      rw [hins, hkeys1]
      by_cases hku : k = url
      · subst hku; simp
      · apply List.mem_append_left
        apply List.mem_filter.mpr
        refine ⟨?_, by simpa using hku⟩
        exact List.mem_filter.mpr ⟨hk, by simpa using hko⟩
  · exfalso
    apply hk2
    have hstep : evict_if_full s = s := by simp [evict_if_full, h5]
    rw [hins, hstep]
    by_cases hku : k = url
    · subst hku; simp
    · exact List.mem_append_left _ (List.mem_filter.mpr ⟨hk, by simpa using hku⟩)

/-! ### Disk cleanup (PageCacheInner::cleanup_old_cache) -/

/-- One file of the cache directory as cleanup_old_cache sees it: the path,
the byte length from the metadata, and the modification time. -/
structure DiskEntry where
  path : Nat
  size : Nat
  modified : Nat
deriving DecidableEq

/-- Total byte usage of a set of cache files. -/
def total_size (entries : List DiskEntry) : Nat :=
  (entries.map (fun e => e.size)).sum

/-- Ordering used by the cleanup sweep: older modification time first. -/
def mod_le (a b : DiskEntry) : Prop :=
  a.modified ≤ b.modified

/-- Insertion step of sorting the directory entries by modification time
(the model of entries.sort_by_key on the modified field). -/
def insert_by_modified (e : DiskEntry) : List DiskEntry → List DiskEntry
  | [] => [e]
  | f :: rest =>
      if e.modified ≤ f.modified then e :: f :: rest
      else f :: insert_by_modified e rest

/-- Sorting the directory entries by modification time, oldest first. -/
def sort_by_modified : List DiskEntry → List DiskEntry
  | [] => []
  | e :: rest => insert_by_modified e (sort_by_modified rest)

/-- The disk budget in bytes: MAX_DISK_CACHE_MB * 1024 * 1024. -/
def max_disk_bytes : Nat := MAX_DISK_CACHE_MB * 1024 * 1024

/-- The 80% low-water mark max_bytes * 80 / 100 from the deletion loop. -/
def disk_low_water : Nat := max_disk_bytes * 80 / 100

/-- Deletion loop of cleanup_old_cache: walk the sorted entries with the
running current_size, stop as soon as current_size has fallen to the
low-water mark, otherwise delete the file and subtract its size (file
removal is assumed to succeed).  Returns (kept files, deleted files). -/
def cleanup_loop : Nat → List DiskEntry → List DiskEntry × List DiskEntry
  | _, [] => ([], [])
  | cur, e :: rest =>
      if cur ≤ disk_low_water then (e :: rest, [])
      else
        let p := cleanup_loop (cur - e.size) rest
        (p.1, e :: p.2)

/-- Function PageCacheInner::cleanup_old_cache: when total usage exceeds the
budget, delete files oldest-by-modified-time until usage is at or below the
low-water mark; otherwise leave the directory untouched.  Returns the kept
files and the deleted files. -/
def cleanup_old_cache (entries : List DiskEntry) : List DiskEntry × List DiskEntry :=
  if max_disk_bytes < total_size entries then
    cleanup_loop (total_size entries) (sort_by_modified entries)
  else (entries, [])

theorem cleanup_loop_total {l : List DiskEntry} {cur : Nat}
    (h : total_size l = cur) : total_size (cleanup_loop cur l).1 ≤ disk_low_water := by
  induction l generalizing cur with
  | nil => simp [cleanup_loop, total_size]
  | cons e rest ih =>
      by_cases hc : cur ≤ disk_low_water
      · simp only [cleanup_loop, if_pos hc]
        exact h ▸ hc
      · simp only [cleanup_loop, if_neg hc]
        apply ih
        have he : total_size (e :: rest) = e.size + total_size rest := by
          simp [total_size]
        omega

theorem cleanup_loop_partition (cur : Nat) (l : List DiskEntry) :
    (cleanup_loop cur l).2 ++ (cleanup_loop cur l).1 = l := by
  induction l generalizing cur with
  | nil => rfl
  | cons e rest ih =>
      by_cases hc : cur ≤ disk_low_water
      · simp [cleanup_loop, if_pos hc]
      · simp only [cleanup_loop, if_neg hc]
        show e :: ((cleanup_loop (cur - e.size) rest).2 ++ _) = _
        rw [ih]

theorem insert_by_modified_perm (e : DiskEntry) (l : List DiskEntry) :
    (insert_by_modified e l).Perm (e :: l) := by
  induction l with
  | nil => exact List.Perm.refl _
  | cons f rest ih =>
      by_cases hc : e.modified ≤ f.modified
      · simp only [insert_by_modified, if_pos hc]
        exact List.Perm.refl _
      · simp only [insert_by_modified, if_neg hc]
        exact (ih.cons f).trans (List.Perm.swap e f rest)

theorem insert_by_modified_sorted {l : List DiskEntry} (h : l.Pairwise mod_le)
    (e : DiskEntry) : (insert_by_modified e l).Pairwise mod_le := by
  induction l with
  | nil => simp [insert_by_modified, List.pairwise_singleton]
  | cons f rest ih =>
      rw [List.pairwise_cons] at h
      by_cases hc : e.modified ≤ f.modified
      · simp only [insert_by_modified, if_pos hc]
        rw [List.pairwise_cons]
        refine ⟨?_, List.pairwise_cons.mpr h⟩
        intro b hb
        cases List.mem_cons.mp hb with
        | inl hb1 => exact hb1 ▸ hc
        | inr hb2 => exact le_trans hc (h.1 b hb2)
      · simp only [insert_by_modified, if_neg hc]
        rw [List.pairwise_cons]
        refine ⟨?_, ih h.2⟩
        intro b hb
        have hb2 := (insert_by_modified_perm e rest).mem_iff.mp hb
        cases List.mem_cons.mp hb2 with
        | inl hbe => exact hbe ▸ le_of_not_le hc
        | inr hbr => exact h.1 b hbr

theorem sort_by_modified_perm (l : List DiskEntry) :
    (sort_by_modified l).Perm l := by
  induction l with
  | nil => exact List.Perm.refl _
  | cons e rest ih =>
      exact (insert_by_modified_perm e (sort_by_modified rest)).trans (ih.cons e)

theorem sort_by_modified_sorted (l : List DiskEntry) :
    (sort_by_modified l).Pairwise mod_le := by
  induction l with
  | nil => exact List.Pairwise.nil
  | cons e rest ih => exact insert_by_modified_sorted ih e

theorem total_size_perm {l1 l2 : List DiskEntry} (h : l1.Perm l2) :
    total_size l1 = total_size l2 := by
  unfold total_size
  exact (h.map (fun e => e.size)).sum_eq

/-! ### Background tasks and their terminal events (src/main.rs) -/

/-- Manga record, reduced to the fields the modelled control flow reads. -/
structure Manga where
  id : String
  cover_url : String
deriving DecidableEq

/-- Chapter record, reduced to the fields the modelled control flow reads. -/
structure Chapter where
  id : String
  external_url : Option String
deriving DecidableEq

/-- The BackgroundTask enum from main.rs: the closed set of terminal events
a spawned unit can send into the channel. -/
inductive BackgroundTask (V : Type) where
  | cover_loaded (manga_id : String) (image : V)
  | chapters_loaded (chapters : List Chapter)
  | chapter_thumbnail_loaded (chapter_id : String) (image : V)
  | page_urls_loaded (urls : List String)
  | page_urls_load_failed
  | page_image_loaded (image : V)
  | page_image_load_failed
  | page_preloaded (page_url : String)
  | search_results (results : List Manga)
deriving DecidableEq

/-- Events sent by one cover-loading unit of spawn_cover_loaders (and of
preload_covers), as a function of the fetch_cover_image outcome: an event
on success, silence on failure. -/
def cover_loader_events {V : Type} (manga_id : String) (fetched : Option V) :
    List (BackgroundTask V) :=
  match fetched with
  | some image => [BackgroundTask.cover_loaded manga_id image]
  | none => []

/-- Events sent by spawn_chapters_loader from the get_manga_chapters
outcome: an event on Ok, silence on Err. -/
def chapters_loader_events {V : Type} (res : Option (List Chapter)) :
    List (BackgroundTask V) :=
  match res with
  | some chapters => [BackgroundTask.chapters_loaded chapters]
  | none => []

/-- Events sent by spawn_chapter_thumbnail_loader from the
load_chapter_thumbnail outcome. -/
def chapter_thumbnail_loader_events {V : Type} (chapter_id : String)
    (fetched : Option V) : List (BackgroundTask V) :=
  match fetched with
  | some image => [BackgroundTask.chapter_thumbnail_loaded chapter_id image]
  | none => []

/-- Loop body of spawn_chapter_thumbnails_preloader for one chapter:
chapters flagged external are skipped, otherwise one event is sent when
the thumbnail resolves. -/
def chapter_thumbnail_sweep_item {V : Type} (thumb : String → Option V)
    (c : Chapter) : List (BackgroundTask V) :=
  if c.external_url.isSome then []
  else
    match thumb c.id with
    | some image => [BackgroundTask.chapter_thumbnail_loaded c.id image]
    | none => []

/-- Events sent by the single spawn_chapter_thumbnails_preloader task: it
walks the chapter list running the loop body on each chapter. -/
def chapter_thumbnails_preloader_events {V : Type} (chapters : List Chapter)
    (thumb : String → Option V) : List (BackgroundTask V) :=
  chapters.flatMap (chapter_thumbnail_sweep_item thumb)

/-- Events sent by spawn_page_urls_loader, as a function of the cached URL
list and the get_chapter_pages outcome: cached hit, nonempty fetch, empty
fetch, failed fetch. -/
def page_urls_loader_events {V : Type} (cached : Option (List String))
    (fetched : Option (List String)) : List (BackgroundTask V) :=
  match cached with
  | some urls => [BackgroundTask.page_urls_loaded urls]
  | none =>
      match fetched with
      | some urls =>
          if urls.isEmpty then [BackgroundTask.page_urls_load_failed]
          else [BackgroundTask.page_urls_loaded urls]
      | none => [BackgroundTask.page_urls_load_failed]

/-- Constant MAX_RETRIES of spawn_page_image_loader. -/
def MAX_RETRIES : Nat := 3

/-- Retry loop of spawn_page_image_loader over the listed attempt indices:
success sends the loaded event and stops; a failure on any attempt but the
last sleeps 500 * (attempt + 1) milliseconds; exhausting the attempts sends
the failed event.  Returns the events sent and the list of delays slept. -/
def page_image_attempts {V : Type} (fetch : Nat → Option V) :
    List Nat → List (BackgroundTask V) × List Nat
  | [] => ([BackgroundTask.page_image_load_failed], [])
  | a :: rest =>
      match fetch a with
      | some image => ([BackgroundTask.page_image_loaded image], [])
      | none =>
          if a < MAX_RETRIES - 1 then
            let p := page_image_attempts fetch rest
            (p.1, 500 * (a + 1) :: p.2)
          else
            let p := page_image_attempts fetch rest
            (p.1, p.2)

/-- Function spawn_page_image_loader: a cache hit answers immediately,
otherwise the task runs attempts 0 .. MAX_RETRIES - 1 of fetch_page_image.
Returns the events sent and the backoff delays slept. -/
def spawn_page_image_loader {V : Type} (cached : Option V)
    (fetch : Nat → Option V) : List (BackgroundTask V) × List Nat :=
  match cached with
  | some image => ([BackgroundTask.page_image_loaded image], [])
  | none => page_image_attempts fetch (List.range MAX_RETRIES)

/-- Events sent by spawn_page_preloader: cache hit or successful fetch send
the preloaded event, a failed fetch is silent. -/
def page_preloader_events {V : Type} (page_url : String) (has : Bool)
    (fetched : Option V) : List (BackgroundTask V) :=
  if has then [BackgroundTask.page_preloaded page_url]
  else
    match fetched with
    | some _ => [BackgroundTask.page_preloaded page_url]
    | none => []

/-- Events sent by spawn_search: Ok sends the results, Err sends an empty
result set; an event is sent in both branches. -/
def search_events {V : Type} (res : Option (List Manga)) :
    List (BackgroundTask V) :=
  match res with
  | some results => [BackgroundTask.search_results results]
  | none => [BackgroundTask.search_results []]

/-- Count of page_image_loaded events in an event list. -/
def count_image_loaded {V : Type} (evs : List (BackgroundTask V)) : Nat :=
  (evs.filter (fun e =>
    match e with
    | BackgroundTask.page_image_loaded _ => true
    | _ => false)).length

/-- Count of page_image_load_failed events in an event list. -/
def count_image_failed {V : Type} (evs : List (BackgroundTask V)) : Nat :=
  (evs.filter (fun e =>
    match e with
    | BackgroundTask.page_image_load_failed => true
    | _ => false)).length

theorem page_image_attempts_length {V : Type} (fetch : Nat → Option V)
    (attempts : List Nat) : (page_image_attempts fetch attempts).1.length = 1 := by
  induction attempts with
  | nil => rfl
  | cons a rest ih =>
      unfold page_image_attempts
      cases fetch a with
      | some image => rfl
      | none =>
          by_cases hc : a < MAX_RETRIES - 1
          · simp only [if_pos hc]
            exact ih
          · simp only [if_neg hc]
            exact ih

/-! ### Preload scheduler (preload_upcoming_pages in src/main.rs) -/

/-- Constant PRELOAD_AHEAD of preload_upcoming_pages. -/
def PRELOAD_AHEAD : Nat := 3

/-- The look-ahead window: the next PRELOAD_AHEAD page URLs after
current_page. -/
def preload_window (page_urls : List String) (current_page : Nat) : List String :=
  (page_urls.drop (current_page + 1)).take PRELOAD_AHEAD

/-- Function preload_upcoming_pages: walk the window; every url not in the
preloading set is added to the set and a preloader task is spawned for it.
Returns the updated preloading set and the urls spawned, in order. -/
def preload_upcoming_pages (page_urls : List String) (current_page : Nat)
    (preloading : List String) : List String × List String :=
  (preload_window page_urls current_page).foldl
    (fun acc url => if url ∈ acc.1 then acc else (url :: acc.1, acc.2 ++ [url]))
    (preloading, [])

theorem preload_fold_inv (w : List String) :
    ∀ (p : List String × List String), p.1.Nodup → p.2.Nodup →
      (∀ u ∈ p.2, u ∈ p.1) →
      (w.foldl
        (fun acc url => if url ∈ acc.1 then acc else (url :: acc.1, acc.2 ++ [url])) p).1.Nodup ∧
      (w.foldl
        (fun acc url => if url ∈ acc.1 then acc else (url :: acc.1, acc.2 ++ [url])) p).2.Nodup ∧
      (∀ u ∈ (w.foldl
        (fun acc url => if url ∈ acc.1 then acc else (url :: acc.1, acc.2 ++ [url])) p).2,
        u ∈ (w.foldl
        (fun acc url => if url ∈ acc.1 then acc else (url :: acc.1, acc.2 ++ [url])) p).1) ∧
      (∀ u ∈ p.1, u ∈ (w.foldl
        (fun acc url => if url ∈ acc.1 then acc else (url :: acc.1, acc.2 ++ [url])) p).1) ∧
      (∀ u ∈ (w.foldl
        (fun acc url => if url ∈ acc.1 then acc else (url :: acc.1, acc.2 ++ [url])) p).2,
        u ∈ p.2 ∨ u ∉ p.1) := by
  induction w with
  | nil =>
      intro p h1 h2 h3
      exact ⟨h1, h2, h3, fun u hu => hu, fun u hu => Or.inl hu⟩
  | cons url rest ih =>
      intro p h1 h2 h3
      by_cases hm : url ∈ p.1
      · simpa only [List.foldl_cons, if_pos hm] using ih p h1 h2 h3
      · have h1a : (url :: p.1).Nodup := List.nodup_cons.mpr ⟨hm, h1⟩
        have h2a : (p.2 ++ [url]).Nodup := by
          rw [List.nodup_append]
          refine ⟨h2, List.nodup_singleton url, ?_⟩
          intro x hx hx1
          rw [List.mem_singleton] at hx1
          exact hm (hx1 ▸ h3 x hx)
        have h3a : ∀ u ∈ p.2 ++ [url], u ∈ url :: p.1 := by
          intro u hu
          cases List.mem_append.mp hu with
          | inl hu1 => exact List.mem_cons_of_mem _ (h3 u hu1)
          | inr hu2 => exact List.mem_singleton.mp hu2 ▸ List.mem_cons_self _ _
        have hr := ih (url :: p.1, p.2 ++ [url]) h1a h2a h3a
        simp only [List.foldl_cons, if_neg hm]
        refine ⟨hr.1, hr.2.1, hr.2.2.1, ?_, ?_⟩
        · intro u hu
          exact hr.2.2.2.1 u (List.mem_cons_of_mem _ hu)
        · intro u hu
          cases hr.2.2.2.2 u hu with
          | inl h4 =>
              cases List.mem_append.mp h4 with
              | inl h5 => exact Or.inl h5
              | inr h6 => exact Or.inr (List.mem_singleton.mp h6 ▸ hm)
          | inr h4 => exact Or.inr (fun hc => h4 (List.mem_cons_of_mem _ hc))

/-- Facts about one preload_upcoming_pages call: starting from a nodup
preloading set, the updated set is nodup, the spawned urls are nodup, each
spawned url enters the updated set, the old set survives, and no spawned
url was already pending. -/
theorem preload_upcoming_pages_spec (page_urls : List String) (current_page : Nat)
    {preloading : List String} (h : preloading.Nodup) :
    (preload_upcoming_pages page_urls current_page preloading).1.Nodup ∧
    (preload_upcoming_pages page_urls current_page preloading).2.Nodup ∧
    (∀ u ∈ (preload_upcoming_pages page_urls current_page preloading).2,
      u ∈ (preload_upcoming_pages page_urls current_page preloading).1) ∧
    (∀ u ∈ preloading, u ∈ (preload_upcoming_pages page_urls current_page preloading).1) ∧
    (∀ u ∈ (preload_upcoming_pages page_urls current_page preloading).2,
      u ∉ preloading) := by
  have hr := preload_fold_inv (preload_window page_urls current_page)
    (preloading, []) h List.nodup_nil (by intro u hu; cases hu)
  refine ⟨hr.1, hr.2.1, hr.2.2.1, hr.2.2.2.1, ?_⟩
  intro u hu
  cases hr.2.2.2.2 u hu with
  | inl h4 => cases h4
  | inr h4 => exact h4

/-! ### In-flight preload bookkeeping (the pending-set discipline of run_app) -/

/-- Bookkeeping state: the preloading_pages HashSet owned by the event
loop, and the resource keys of the spawn_page_preloader tasks currently
alive. -/
structure PreloadPool where
  preloading_pages : List String
  inflight : List String
deriving DecidableEq

/-- Events affecting the preload pool: a preload_upcoming_pages invocation
(from any of its three call sites), the loop consuming a PagePreloaded
event (which removes the url from the pending set as the task ends), and a
preload task ending silently after a failed fetch (the url then stays in
the pending set, as in the source). -/
inductive PreloadOp where
  | trigger (page_urls : List String) (current_page : Nat)
  | consume_preloaded (url : String)
  | task_failed_silently (url : String)
deriving DecidableEq

/-- The empty pool at startup. -/
def pool_empty : PreloadPool := ⟨[], []⟩

/-- Transition of the preload pool. -/
def preload_pool_step (s : PreloadPool) (op : PreloadOp) : PreloadPool :=
  match op with
  | PreloadOp.trigger page_urls current_page =>
      { preloading_pages :=
          (preload_upcoming_pages page_urls current_page s.preloading_pages).1,
        inflight :=
          s.inflight ++ (preload_upcoming_pages page_urls current_page s.preloading_pages).2 }
  | PreloadOp.consume_preloaded url =>
      if url ∈ s.inflight then
        { preloading_pages := s.preloading_pages.filter (fun k => k ≠ url),
          inflight := s.inflight.filter (fun k => k ≠ url) }
      else s
  | PreloadOp.task_failed_silently url =>
      if url ∈ s.inflight then
        { s with inflight := s.inflight.filter (fun k => k ≠ url) }
      else s

/-- A sequence of pool events from a starting pool. -/
def run_pool (ops : List PreloadOp) (s : PreloadPool) : PreloadPool :=
  ops.foldl preload_pool_step s

/-- Pool invariant: the pending set is nodup, at most one alive preload
task per key, and every alive preload task has its key pending. -/
def pool_inv (s : PreloadPool) : Prop :=
  s.preloading_pages.Nodup ∧ s.inflight.Nodup ∧
    ∀ u ∈ s.inflight, u ∈ s.preloading_pages

theorem preload_pool_step_inv {s : PreloadPool} (h : pool_inv s) (op : PreloadOp) :
    pool_inv (preload_pool_step s op) := by
  obtain ⟨h1, h2, h3⟩ := h
  cases op with
  | trigger page_urls current_page =>
      obtain ⟨g1, g2, g3, g4, g5⟩ :=
        preload_upcoming_pages_spec page_urls current_page h1
      refine ⟨g1, ?_, ?_⟩
      · show (s.inflight ++
            (preload_upcoming_pages page_urls current_page s.preloading_pages).2).Nodup
        rw [List.nodup_append]
        refine ⟨h2, g2, ?_⟩
        intro x hx hx2
        exact g5 x hx2 (h3 x hx)
      · intro u hu
        have hu0 : u ∈ s.inflight ++
            (preload_upcoming_pages page_urls current_page s.preloading_pages).2 := hu
        cases List.mem_append.mp hu0 with
        | inl hu1 => exact g4 u (h3 u hu1)
        | inr hu2 => exact g3 u hu2
  | consume_preloaded url =>
      by_cases hm : url ∈ s.inflight
      · simp only [preload_pool_step, if_pos hm]
        refine ⟨h1.filter _, h2.filter _, ?_⟩
        intro u hu
        have hu1 := List.of_mem_filter hu
        exact List.mem_filter.mpr ⟨h3 u (List.mem_of_mem_filter hu), hu1⟩
      · simpa [preload_pool_step, if_neg hm] using ⟨h1, h2, h3⟩
  | task_failed_silently url =>
      by_cases hm : url ∈ s.inflight
      · simp only [preload_pool_step, if_pos hm]
        refine ⟨h1, h2.filter _, ?_⟩
        intro u hu
        exact h3 u (List.mem_of_mem_filter hu)
      · simpa [preload_pool_step, if_neg hm] using ⟨h1, h2, h3⟩

theorem run_pool_inv (ops : List PreloadOp) {s : PreloadPool} (h : pool_inv s) :
    pool_inv (run_pool ops s) := by
  induction ops generalizing s with
  | nil => exact h
  | cons op rest ih => exact ih (preload_pool_step_inv h op)

theorem pool_empty_inv : pool_inv pool_empty :=
  ⟨List.nodup_nil, List.nodup_nil, by intro u hu; cases hu⟩

/-! ### Navigation state machine (src/ui/ui.rs) -/

/-- The View enum from ui.rs. -/
inductive View where
  | home
  | manga_detail
  | reader
deriving DecidableEq

/-- The ReaderState struct from ui.rs, reduced to the fields the modelled
control flow reads and writes; page_image stands for the rendered protocol. -/
structure ReaderState (V : Type) where
  manga : Option Manga
  chapters : List Chapter
  current_chapter_idx : Nat
  page_urls : List String
  current_page : Nat
  page_image : Option V
  loading : Bool
  error : Option String
deriving DecidableEq

/-- ReaderState::default: every field at its Default value. -/
def reader_default (V : Type) : ReaderState V :=
  ⟨none, [], 0, [], 0, none, false, none⟩

/-- The App struct from ui.rs, reduced to the navigation-relevant fields;
picker records whether a terminal image picker is available. -/
structure App (V : Type) where
  view : View
  selected_manga : Option Manga
  chapters : List Chapter
  chapter_selected : Nat
  picker : Bool
  reader : ReaderState V
deriving DecidableEq

/-- Method App::open_manga: select the manga, enter MangaDetail, and clear
the chapter state of any previously opened manga. -/
def open_manga {V : Type} (s : App V) (manga : Manga) : App V :=
  { s with
    selected_manga := some manga,
    view := View.manga_detail,
    chapters := [],
    chapter_selected := 0 }

/-- The ChaptersLoaded arm of the event loop: store the fetched chapters. -/
def set_chapters {V : Type} (s : App V) (chapters : List Chapter) : App V :=
  { s with chapters := chapters }

/-- Method App::open_reader: record the chapter, copy the manga and chapter
list into the reader, reset page position, page URLs, page image and the
loading flag, and enter Reader.  The error field is left as it was, exactly
as in the source. -/
def open_reader {V : Type} (s : App V) (chapter_idx : Nat) : App V :=
  { s with
    reader := { s.reader with
      current_chapter_idx := chapter_idx,
      manga := s.selected_manga,
      chapters := s.chapters,
      current_page := 0,
      page_urls := [],
      page_image := none,
      loading := true },
    view := View.reader }

/-- Method App::set_page_image: store the rendered page when a picker is
available, clear the loading flag and the error. -/
def set_page_image {V : Type} (s : App V) (image : V) : App V :=
  { s with
    reader := { s.reader with
      page_image := if s.picker then some image else s.reader.page_image,
      loading := false,
      error := none } }

/-- Method App::set_page_load_error. -/
def set_page_load_error {V : Type} (s : App V) (error : String) : App V :=
  { s with reader := { s.reader with loading := false, error := some error } }

/-- Method App::next_page: advance when not on the last page; a successful
move resets loading, page image and error.  Returns the new state and
whether the move happened. -/
def next_page {V : Type} (s : App V) : App V × Bool :=
  if s.reader.current_page + 1 < s.reader.page_urls.length then
    ({ s with reader := { s.reader with
        current_page := s.reader.current_page + 1,
        loading := true,
        page_image := none,
        error := none } }, true)
  else (s, false)

/-- Method App::prev_page. -/
def prev_page {V : Type} (s : App V) : App V × Bool :=
  if 0 < s.reader.current_page then
    ({ s with reader := { s.reader with
        current_page := s.reader.current_page - 1,
        loading := true,
        page_image := none,
        error := none } }, true)
  else (s, false)

/-- Method App::next_chapter. -/
def next_chapter {V : Type} (s : App V) : App V × Bool :=
  if s.reader.current_chapter_idx + 1 < s.reader.chapters.length then
    ({ s with reader := { s.reader with
        current_chapter_idx := s.reader.current_chapter_idx + 1,
        current_page := 0,
        page_urls := [],
        page_image := none,
        loading := true,
        error := none } }, true)
  else (s, false)

/-- Method App::prev_chapter. -/
def prev_chapter {V : Type} (s : App V) : App V × Bool :=
  if 0 < s.reader.current_chapter_idx then
    ({ s with reader := { s.reader with
        current_chapter_idx := s.reader.current_chapter_idx - 1,
        current_page := 0,
        page_urls := [],
        page_image := none,
        loading := true,
        error := none } }, true)
  else (s, false)

/-- Method App::go_back: Reader falls back to MangaDetail changing nothing
else; MangaDetail falls back to Home clearing the selected manga and the
chapter list; Home is terminal. -/
def go_back {V : Type} (s : App V) : App V :=
  match s.view with
  | View.reader => { s with view := View.manga_detail }
  | View.manga_detail =>
      { s with view := View.home, selected_manga := none, chapters := [] }
  | View.home => s

/-- What the reader pane of draw_reader shows, in its branch order:
loading spinner, else the error text, else the page, else a placeholder. -/
inductive ReaderDisplay where
  | loading_screen
  | error_screen (msg : String)
  | page_screen
  | no_page
deriving DecidableEq

/-- Branch selection of draw_reader in ui.rs. -/
def draw_reader {V : Type} (r : ReaderState V) : ReaderDisplay :=
  if r.loading then ReaderDisplay.loading_screen
  else
    match r.error with
    | some e => ReaderDisplay.error_screen e
    | none =>
        match r.page_image with
        | some _ => ReaderDisplay.page_screen
        | none => ReaderDisplay.no_page

/-- The page counter of the reader header: Page current_page + 1 of
max(page_urls.len, 1). -/
def reader_header {V : Type} (r : ReaderState V) : Nat × Nat :=
  (r.current_page + 1, max r.page_urls.length 1)

/-- Error text of the PageUrlsLoadFailed arm (retry hint abbreviated). -/
def PAGE_URLS_ERROR : String := "Failed to load chapter pages."

/-- Error text of the PageImageLoadFailed arm (retry hint abbreviated). -/
def PAGE_IMAGE_ERROR : String := "Failed to load page image."

/-- Channel events and key presses that mutate the reader state while the
Reader view is open, as handled by run_app and handle_reader_input. -/
inductive ReaderEv (V : Type) where
  | ev_page_urls_loaded (urls : List String)
  | ev_page_urls_load_failed
  | ev_page_image_loaded (image : V)
  | ev_page_image_load_failed
  | key_next_page
  | key_prev_page
  | key_next_chapter
  | key_prev_chapter
deriving DecidableEq

/-- Effect of one reader event (spawning side effects omitted here; they
are modelled by the task-unit functions above). -/
def apply_reader_ev {V : Type} (s : App V) (ev : ReaderEv V) : App V :=
  match ev with
  | ReaderEv.ev_page_urls_loaded urls =>
      { s with reader := { s.reader with page_urls := urls, error := none } }
  | ReaderEv.ev_page_urls_load_failed => set_page_load_error s PAGE_URLS_ERROR
  | ReaderEv.ev_page_image_loaded image => set_page_image s image
  | ReaderEv.ev_page_image_load_failed => set_page_load_error s PAGE_IMAGE_ERROR
  | ReaderEv.key_next_page => (next_page s).1
  | ReaderEv.key_prev_page => (prev_page s).1
  | ReaderEv.key_next_chapter => (next_chapter s).1
  | ReaderEv.key_prev_chapter => (prev_chapter s).1

/-- A sequence of reader events from a starting state. -/
def run_reader {V : Type} (evs : List (ReaderEv V)) (s : App V) : App V :=
  evs.foldl apply_reader_ev s

/-- The error messages a list of reader events can set. -/
def error_msgs_of {V : Type} (evs : List (ReaderEv V)) : List String :=
  evs.filterMap (fun e =>
    match e with
    | ReaderEv.ev_page_urls_load_failed => some PAGE_URLS_ERROR
    | ReaderEv.ev_page_image_load_failed => some PAGE_IMAGE_ERROR
    | _ => none)

/-- Every displayable error of the state is accounted for by msgs: whenever
loading is off and an error is set, the message is one of msgs. -/
def error_accounted {V : Type} (s : App V) (msgs : List String) : Prop :=
  ∀ m, s.reader.loading = false → s.reader.error = some m → m ∈ msgs

theorem error_accounted_mono {V : Type} {s : App V} {msgs msgs2 : List String}
    (h : error_accounted s msgs) (hsub : ∀ m ∈ msgs, m ∈ msgs2) :
    error_accounted s msgs2 :=
  fun m h1 h2 => hsub m (h m h1 h2)

theorem apply_reader_ev_error_accounted {V : Type} {s : App V} {msgs : List String}
    (h : error_accounted s msgs) (ev : ReaderEv V) :
    error_accounted (apply_reader_ev s ev) (msgs ++ error_msgs_of [ev]) := by
  cases ev with
  | ev_page_urls_loaded urls =>
      intro m h1 h2
      exact absurd h2 (by simp [apply_reader_ev])
  | ev_page_urls_load_failed =>
      intro m h1 h2
      simp only [apply_reader_ev, set_page_load_error] at h2
      have hm : m = PAGE_URLS_ERROR := by
        have := h2
        simpa using this.symm
      subst hm
      simp [error_msgs_of]
  | ev_page_image_loaded image =>
      intro m h1 h2
      exact absurd h2 (by simp [apply_reader_ev, set_page_image])
  | ev_page_image_load_failed =>
      intro m h1 h2
      simp only [apply_reader_ev, set_page_load_error] at h2
      have hm : m = PAGE_IMAGE_ERROR := by
        have := h2
        simpa using this.symm
      subst hm
      simp [error_msgs_of]
  | key_next_page =>
      intro m h1 h2
      simp only [apply_reader_ev, next_page] at h1 h2
      by_cases hc : s.reader.current_page + 1 < s.reader.page_urls.length
      · rw [if_pos hc] at h1
        simp at h1
      · rw [if_neg hc] at h1 h2
        exact List.mem_append_left _ (h m h1 h2)
  | key_prev_page =>
      intro m h1 h2
      simp only [apply_reader_ev, prev_page] at h1 h2
      by_cases hc : 0 < s.reader.current_page
      · rw [if_pos hc] at h1
        simp at h1
      · rw [if_neg hc] at h1 h2
        exact List.mem_append_left _ (h m h1 h2)
  | key_next_chapter =>
      intro m h1 h2
      simp only [apply_reader_ev, next_chapter] at h1 h2
      by_cases hc : s.reader.current_chapter_idx + 1 < s.reader.chapters.length
      · rw [if_pos hc] at h1
        simp at h1
      · rw [if_neg hc] at h1 h2
        exact List.mem_append_left _ (h m h1 h2)
  | key_prev_chapter =>
      intro m h1 h2
      simp only [apply_reader_ev, prev_chapter] at h1 h2
      by_cases hc : 0 < s.reader.current_chapter_idx
      · rw [if_pos hc] at h1
        simp at h1
      · rw [if_neg hc] at h1 h2
        exact List.mem_append_left _ (h m h1 h2)

theorem run_reader_error_accounted {V : Type} (evs : List (ReaderEv V)) :
    ∀ (s : App V) (msgs : List String), error_accounted s msgs →
      error_accounted (run_reader evs s) (msgs ++ error_msgs_of evs) := by
  induction evs with
  | nil =>
      intro s msgs h
      simpa [run_reader, error_msgs_of] using h
  | cons ev rest ih =>
      intro s msgs h
      have h1 := apply_reader_ev_error_accounted h ev
      have h2 := ih (apply_reader_ev s ev) (msgs ++ error_msgs_of [ev]) h1
      apply error_accounted_mono h2
      intro m hm
      simp only [error_msgs_of, List.filterMap_cons] at hm ⊢
      cases ev <;> simp_all [List.mem_append, error_msgs_of]

/-! ### Reader navigation spawning page-image loaders (handle_reader_input) -/

/-- State threaded through handle_reader_input: the application, the
preloading_pages set, and the keys of the spawn_page_image_loader tasks
spawned so far whose terminal event has not yet been consumed. -/
structure ReaderSim (V : Type) where
  app : App V
  preloading_pages : List String
  image_loads : List String
deriving DecidableEq

/-- The Left and Right arms of handle_reader_input. -/
inductive ReaderKey where
  | left
  | right
deriving DecidableEq

/-- Keys Left and Right of handle_reader_input: a successful page move
spawns a page-image loader for the new current page with no pending-set
check; Right additionally re-invokes the preload scheduler (whose own
spawns go through the preloading_pages guard). -/
def handle_reader_key {V : Type} (s : ReaderSim V) (key : ReaderKey) : ReaderSim V :=
  match key with
  | ReaderKey.left =>
      if (prev_page s.app).2 then
        match (prev_page s.app).1.reader.page_urls.get?
            (prev_page s.app).1.reader.current_page with
        | some url =>
            { s with app := (prev_page s.app).1,
                     image_loads := s.image_loads ++ [url] }
        | none => { s with app := (prev_page s.app).1 }
      else { s with app := (prev_page s.app).1 }
  | ReaderKey.right =>
      if (next_page s.app).2 then
        match (next_page s.app).1.reader.page_urls.get?
            (next_page s.app).1.reader.current_page with
        | some url =>
            { app := (next_page s.app).1,
              preloading_pages :=
                (preload_upcoming_pages (next_page s.app).1.reader.page_urls
                  (next_page s.app).1.reader.current_page s.preloading_pages).1,
              image_loads := s.image_loads ++ [url] }
        | none =>
            { app := (next_page s.app).1,
              preloading_pages :=
                (preload_upcoming_pages (next_page s.app).1.reader.page_urls
                  (next_page s.app).1.reader.current_page s.preloading_pages).1,
              image_loads := s.image_loads }
      else { s with app := (next_page s.app).1 }

/-- A sequence of reader keys. -/
def run_reader_keys {V : Type} (keys : List ReaderKey) (s : ReaderSim V) :
    ReaderSim V :=
  keys.foldl handle_reader_key s

/-- A reader session on a two-page chapter, current page 0, nothing
pending and nothing in flight. -/
def two_page_sim : ReaderSim Nat :=
  { app :=
      { view := View.reader,
        selected_manga := some ⟨"m1", "c1"⟩,
        chapters := [⟨"ch1", none⟩],
        chapter_selected := 0,
        picker := true,
        reader :=
          { manga := some ⟨"m1", "c1"⟩,
            chapters := [⟨"ch1", none⟩],
            current_chapter_idx := 0,
            page_urls := ["a", "b"],
            current_page := 0,
            page_image := none,
            loading := false,
            error := none } },
    preloading_pages := [],
    image_loads := [] }

/-! ### Search debouncer (run_app and handle_search_tab_input) -/

/-- Constant DEBOUNCE_MS of run_app. -/
def DEBOUNCE_MS : Nat := 300

/-- Search state of the App plus the queries dispatched so far: the query
buffer, the debounce timestamp, the searching flag, and the last
dispatched query. -/
structure SearchApp where
  search_query : String
  search_debounce : Option Nat
  searching : Bool
  last_search_query : String
  dispatched : List String
deriving DecidableEq

/-- Search state at startup. -/
def search_app_start : SearchApp :=
  ⟨"", none, false, "", []⟩

/-- Body of the debounce check once a timestamp t0 is set: with at least
DEBOUNCE_MS elapsed, clear the timestamp and dispatch one search when the
query is nonempty, no search is in flight, and the query differs from the
last dispatched one. -/
def debounce_fire (s : SearchApp) (t0 now : Nat) : SearchApp :=
  if DEBOUNCE_MS ≤ now - t0 then
    if s.search_query ≠ "" ∧ s.searching = false ∧
        s.search_query ≠ s.last_search_query then
      { s with
        search_debounce := none,
        searching := true,
        last_search_query := s.search_query,
        dispatched := s.dispatched ++ [s.search_query] }
    else { s with search_debounce := none }
  else s

/-- The debounce check at the top of every loop iteration: nothing happens
without a timestamp. -/
def debounce_check (s : SearchApp) (now : Nat) : SearchApp :=
  match s.search_debounce with
  | none => s
  | some t0 => debounce_fire s t0 now

/-- What one loop iteration resolved to: only the 50ms tick, a printable
keystroke in the search tab, or the SearchResults message. -/
inductive LoopArm where
  | tick
  | key (c : Char)
  | results
deriving DecidableEq

/-- One iteration of the run_app loop at time now: the debounce check runs
first, then the selected arm.  A keystroke appends to the query and stamps
the debounce timer (handle_search_tab_input); SearchResults clears the
searching flag. -/
def loop_iter (s : SearchApp) (now : Nat) (arm : LoopArm) : SearchApp :=
  match arm with
  | LoopArm.tick => debounce_check s now
  | LoopArm.key c =>
      { debounce_check s now with
        search_query := (debounce_check s now).search_query.push c,
        search_debounce := some now }
  | LoopArm.results =>
      { debounce_check s now with searching := false }

/-- A timed sequence of loop iterations. -/
def run_search (steps : List (Nat × LoopArm)) (s : SearchApp) : SearchApp :=
  steps.foldl (fun s p => loop_iter s p.1 p.2) s

/-! ### Further finite-map lemmas for the write-through path -/

theorem not_mem_keys_map_erase {K V : Type} [DecidableEq K] (m : List (K × V))
    (k : K) : k ∉ map_keys (map_erase m k) := by
  rw [map_keys_erase]
  exact not_mem_filter_ne_self _ _

theorem map_find_append_skip {K V : Type} [DecidableEq K] {l1 : List (K × V)}
    (l2 : List (K × V)) (k : K) (h : k ∉ map_keys l1) :
    map_find (l1 ++ l2) k = map_find l2 k := by
  induction l1 with
  | nil => rfl
  | cons p rest ih =>
      have hp : p.1 ≠ k := fun hc => h (by simp [map_keys, hc])
      simp only [List.cons_append, map_find, if_neg hp]
      exact ih (fun hc => h (List.mem_cons_of_mem _ hc))

theorem map_find_insert_self {K V : Type} [DecidableEq K] (m : List (K × V))
    (k : K) (v : V) : map_find (map_insert m k v) k = some v := by
  unfold map_insert
  rw [map_find_append_skip _ _ (not_mem_keys_map_erase m k)]
  simp [map_find]

theorem map_find_erase_ne {K V : Type} [DecidableEq K] (m : List (K × V))
    {kp k : K} (h : kp ≠ k) : map_find (map_erase m kp) k = map_find m k := by
  induction m with
  | nil => rfl
  | cons p rest ih =>
      by_cases hp : p.1 = kp
      · have hpk : p.1 ≠ k := fun hc => h (hp.symm.trans hc)
        rw [show map_erase (p :: rest) kp = map_erase rest kp from by
          simp [map_erase, List.filter_cons, hp]]
        rw [ih]
        simp [map_find, hpk]
      · rw [show map_erase (p :: rest) kp = p :: map_erase rest kp from by
          simp [map_erase, List.filter_cons, hp]]
        by_cases hpk : p.1 = k
        · simp [map_find, hpk]
        · simp only [map_find, if_neg hpk]
          exact ih

theorem map_find_append {K V : Type} [DecidableEq K] (l1 l2 : List (K × V))
    (k : K) : map_find (l1 ++ l2) k =
      match map_find l1 k with
      | some v => some v
      | none => map_find l2 k := by
  induction l1 with
  | nil => rfl
  | cons p rest ih =>
      by_cases hp : p.1 = k
      · simp [map_find, hp]
      · simp [map_find, hp, ih]

theorem map_find_insert_ne {K V : Type} [DecidableEq K] (m : List (K × V))
    {kp k : K} (h : kp ≠ k) (v : V) :
    map_find (map_insert m kp v) k = map_find m k := by
  unfold map_insert
  rw [map_find_append, map_find_erase_ne m h]
  cases hf : map_find m k with
  | some w => simp [hf]
  | none => simp [hf, map_find, h]

theorem evict_if_full_disk {V : Type} (s : PageCacheInner V) :
    (evict_if_full s).disk = s.disk := by
  unfold evict_if_full
  by_cases h : MAX_MEMORY_PAGES ≤ s.pages.length
  · rw [if_pos h]
    cases s.access_order.head? <;> rfl
  · rw [if_neg h]

theorem insert_memory_disk {V : Type} (s : PageCacheInner V) (url : String)
    (image : V) : (insert_memory s url image).disk = s.disk :=
  evict_if_full_disk s

theorem insert_page_disk {V : Type} (s : PageCacheInner V) (url : String)
    (image : V) :
    (insert_page s url image).disk = map_insert s.disk (md5_hash url) image := by
  show (insert_memory (save_to_disk s url image) url image).disk = _
  rw [insert_memory_disk]
  rfl

theorem draw_reader_error_inversion {V : Type} {r : ReaderState V} {msg : String}
    (h : draw_reader r = ReaderDisplay.error_screen msg) :
    r.loading = false ∧ r.error = some msg := by
  unfold draw_reader at h
  by_cases hl : r.loading
  · rw [if_pos hl] at h
    cases h
  · rw [if_neg hl] at h
    refine ⟨by simpa using hl, ?_⟩
    cases he : r.error with
    | some e =>
        rw [he] at h
        injection h with h2
        rw [h2]
    | none =>
        rw [he] at h
        cases hp : r.page_image with
        | some i => rw [hp] at h; cases h
        | none => rw [hp] at h; cases h

/-! ### Claim theorems -/

/-- C1: for every sequence of page lookups and insertions run from the
empty cache, the in-memory page map never holds more than
MAX_MEMORY_PAGES = 50 entries; and whenever an insertion evicts an entry,
the evicted key is the head of the access-order sequence, the
least-recently-touched key. -/
theorem C1_lru_bound_and_evict_order :
    (∀ ops : List (CacheOp Nat),
      (run_ops ops (empty_cache Nat)).pages.length ≤ MAX_MEMORY_PAGES) ∧
    (∀ (ops : List (CacheOp Nat)) (url : String) (image : Nat) (k : String),
      k ∈ map_keys (run_ops ops (empty_cache Nat)).pages →
      k ∉ map_keys (insert_memory (run_ops ops (empty_cache Nat)) url image).pages →
      (run_ops ops (empty_cache Nat)).access_order.head? = some k) := by
  constructor
  · intro ops
    exact (run_ops_inv ops (empty_cache_inv Nat)).2.2.2
  · intro ops url image k hk hk2
    exact insert_memory_evicts_head (run_ops_inv ops (empty_cache_inv Nat))
      url image hk hk2

/-- Fifty insertions of distinct single-character URLs. -/
def fifty_puts : List (CacheOp Nat) :=
  (List.range 50).map (fun i => CacheOp.put (String.mk [Char.ofNat (48 + i)]) 0)

/-- C1 witness: after fifty distinct insertions the map is full, inserting
a fresh URL evicts the first-inserted key "0", which is the head of the
access order. -/
theorem C1_lru_bound_and_evict_order_witness :
    ("0" ∈ map_keys (run_ops fifty_puts (empty_cache Nat)).pages) ∧
    ("0" ∉ map_keys (insert_memory (run_ops fifty_puts (empty_cache Nat)) "zz" 7).pages) ∧
    (run_ops fifty_puts (empty_cache Nat)).pages.length ≤ MAX_MEMORY_PAGES ∧
    (run_ops fifty_puts (empty_cache Nat)).access_order.head? = some "0" :=
  ⟨by decide, by decide,
    C1_lru_bound_and_evict_order.1 fifty_puts,
    C1_lru_bound_and_evict_order.2 fifty_puts "zz" 7 "0" (by decide) (by decide)⟩

/-- C2 counterexample: with page list [a, b] and no event consumed in
between, the reader keys Right, Left, Right make handle_reader_input spawn
three page-image loader tasks with keys [b, a, b]; two tasks for b are in
flight at once, so the claimed one-in-flight-task-per-key invariant fails
on the navigation path, which has no pending-set guard. -/
theorem C2_duplicate_inflight_cex :
    (run_reader_keys [ReaderKey.right, ReaderKey.left, ReaderKey.right]
      two_page_sim).image_loads = ["b", "a", "b"] ∧
    ¬ ((run_reader_keys [ReaderKey.right, ReaderKey.left, ReaderKey.right]
      two_page_sim).image_loads.count "b" ≤ 1) := by
  constructor
  · decide
  · decide

/-- C2 amended: the preload path is guarded by the pending set: across any
sequence of scheduler invocations, preload completions and silent preload
failures from startup, at most one preload task per resource key is alive
at any instant.  Page-image loads spawned by reader navigation carry no
such guard (previous theorem). -/
theorem C2_preload_pending_set_exclusion :
    ∀ (ops : List PreloadOp) (u : String),
      (run_pool ops pool_empty).inflight.count u ≤ 1 := by
  intro ops u
  have h := run_pool_inv ops pool_empty_inv
  exact List.nodup_iff_count_le_one.mp h.2.1 u

/-- C3: a page-image task on a cache miss: when all three attempts fail it
sends exactly the single failure event, sleeping 500 then 1000 ms between
attempts; when the first success is attempt k (counting from 0) it sends
exactly the single loaded event, with the delay before the j-th retry
being j * 500 ms. -/
theorem C3_page_image_retry_events :
    (∀ fetch : Nat → Option Nat,
      (∀ k, k < MAX_RETRIES → fetch k = none) →
      spawn_page_image_loader none fetch =
        ([BackgroundTask.page_image_load_failed], [500, 1000])) ∧
    (∀ (fetch : Nat → Option Nat) (k : Nat) (image : Nat),
      k < MAX_RETRIES →
      (∀ j, j < k → fetch j = none) →
      fetch k = some image →
      spawn_page_image_loader none fetch =
        ([BackgroundTask.page_image_loaded image],
          (List.range k).map (fun i => 500 * (i + 1)))) := by
  have hr : List.range MAX_RETRIES = [0, 1, 2] := rfl
  constructor
  · intro fetch h
    have h0 := h 0 (by decide)
    have h1 := h 1 (by decide)
    have h2 := h 2 (by decide)
    show page_image_attempts fetch (List.range MAX_RETRIES) = _
    rw [hr]
    simp [page_image_attempts, h0, h1, h2, MAX_RETRIES]
  · intro fetch k image hk hprev hsucc
    show page_image_attempts fetch (List.range MAX_RETRIES) = _
    rw [hr]
    have hk3 : k < 3 := hk
    interval_cases k
    · simp [page_image_attempts, hsucc]
    · have h0 := hprev 0 (by decide)
      simp [page_image_attempts, h0, hsucc, MAX_RETRIES]
      decide
    · have h0 := hprev 0 (by decide)
      have h1 := hprev 1 (by decide)
      simp [page_image_attempts, h0, h1, hsucc, MAX_RETRIES]
      decide

/-- C3 witness: the all-failures fetch exercises the failure branch with
its two backoff delays. -/
theorem C3_page_image_retry_events_witness :
    (∀ k, k < MAX_RETRIES → (fun _ : Nat => (none : Option Nat)) k = none) ∧
    spawn_page_image_loader none (fun _ : Nat => (none : Option Nat)) =
      ([BackgroundTask.page_image_load_failed], [500, 1000]) :=
  ⟨fun _ _ => rfl, C3_page_image_retry_events.1 _ (fun _ _ => rfl)⟩

/-- The colliding scenario for C4: put "ab" then put "Bc" (the two URLs
share the rolling-hash filename 3135), then 49 further distinct insertions
that evict "ab" from the memory tier. -/
def collide_ops : List (CacheOp Nat) :=
  CacheOp.put "ab" 1 :: CacheOp.put "Bc" 2 ::
    (List.range 49).map (fun i => CacheOp.put (String.mk [Char.ofNat (48 + i)]) 3)

/-- C4 counterexample: after put("ab", 1) and the later colliding
put("Bc", 2), once "ab" has been evicted from memory, get("ab") is served
from the disk file the collision overwrote and returns 2, not the stored
value 1. -/
theorem C4_disk_hash_collision_cex :
    md5_hash "ab" = md5_hash "Bc" ∧
    map_find (run_ops collide_ops (empty_cache Nat)).pages "ab" = none ∧
    (get_page (run_ops collide_ops (empty_cache Nat)) "ab").1 = some 2 ∧
    (get_page (run_ops collide_ops (empty_cache Nat)) "ab").1 ≠ some 1 := by
  refine ⟨by decide, by decide, by decide, by decide⟩

/-- C4 amended: get(key) directly after put(key, v) is a memory hit
returning v, with no fetch; the disk tier stores v under the hash filename
of key, lookups never change the disk, and any later put of a URL whose
hash differs leaves that file intact -- so a disk-served get(key) also
returns v provided no colliding write (and no cleanup deletion)
intervened. -/
theorem C4_get_after_put :
    (∀ (s : PageCacheInner Nat) (url : String) (v : Nat),
      (get_page (insert_page s url v) url).1 = some v) ∧
    (∀ (s : PageCacheInner Nat) (url : String) (v : Nat),
      map_find (insert_page s url v).disk (md5_hash url) = some v) ∧
    (∀ (s : PageCacheInner Nat) (url : String) (v : Nat),
      map_find s.pages url = none →
      map_find s.disk (md5_hash url) = some v →
      (get_page s url).1 = some v) ∧
    (∀ (s : PageCacheInner Nat) (url2 : String),
      (get_page s url2).2.disk = s.disk) ∧
    (∀ (s : PageCacheInner Nat) (url url2 : String) (v2 : Nat),
      md5_hash url2 ≠ md5_hash url →
      map_find (insert_page s url2 v2).disk (md5_hash url) =
        map_find s.disk (md5_hash url)) := by
  refine ⟨?_, ?_, ?_, ?_, ?_⟩
  · intro s url v
    have hf : map_find (insert_page s url v).pages url = some v :=
      map_find_insert_self _ _ _
    simp only [get_page, hf]
  · intro s url v
    rw [insert_page_disk]
    exact map_find_insert_self _ _ _
  · intro s url v h1 h2
    simp only [get_page, h1, load_from_disk, h2]
  · intro s url2
    unfold get_page
    cases hf : map_find s.pages url2 with
    | some image => simp only [hf]
    | none =>
        simp only [hf]
        cases hd : load_from_disk s url2 with
        | some image =>
            simp only [hd]
            exact insert_memory_disk s url2 image
        | none => simp only [hd]
  · intro s url url2 v2 h
    rw [insert_page_disk]
    exact map_find_insert_ne _ h _

/-- C4 witness: a disk-resident value is served on a memory miss, and a
put under a different hash leaves an unrelated disk file untouched. -/
theorem C4_get_after_put_witness :
    map_find (save_to_disk (empty_cache Nat) "w" 9).pages "w" = none ∧
    map_find (save_to_disk (empty_cache Nat) "w" 9).disk (md5_hash "w") = some 9 ∧
    (get_page (save_to_disk (empty_cache Nat) "w" 9) "w").1 = some 9 ∧
    md5_hash "x" ≠ md5_hash "y" ∧
    map_find (insert_page (empty_cache Nat) "x" 1).disk (md5_hash "y") =
      map_find (empty_cache Nat).disk (md5_hash "y") :=
  ⟨by decide, by decide,
    C4_get_after_put.2.2.1 _ "w" 9 (by decide) (by decide),
    by decide,
    C4_get_after_put.2.2.2.2 (empty_cache Nat) "y" "x" 1 (by decide)⟩

/-- C5: whenever the cleanup sweep runs with total usage above the byte
budget it brings the kept files down to at most 80% of the budget, and the
deleted files are in oldest-modification-time-first order, each no newer
than any kept file. -/
theorem C5_cleanup_low_water_oldest_first :
    ∀ entries : List DiskEntry,
      (max_disk_bytes < total_size entries →
        total_size (cleanup_old_cache entries).1 ≤ max_disk_bytes * 80 / 100) ∧
      (cleanup_old_cache entries).2.Pairwise mod_le ∧
      (∀ d ∈ (cleanup_old_cache entries).2,
        ∀ kf ∈ (cleanup_old_cache entries).1, d.modified ≤ kf.modified) := by
  intro entries
  by_cases hb : max_disk_bytes < total_size entries
  · have hu : cleanup_old_cache entries =
        cleanup_loop (total_size entries) (sort_by_modified entries) := by
      simp [cleanup_old_cache, if_pos hb]
    have hts : total_size (sort_by_modified entries) = total_size entries :=
      total_size_perm (sort_by_modified_perm entries)
    have hsorted := sort_by_modified_sorted entries
    have hpart := cleanup_loop_partition (total_size entries)
      (sort_by_modified entries)
    have hpw : ((cleanup_old_cache entries).2 ++ (cleanup_old_cache entries).1).Pairwise
        mod_le := by
      rw [hu, hpart]
      exact hsorted
    rw [List.pairwise_append] at hpw
    refine ⟨?_, hpw.1, hpw.2.2⟩
    intro _
    rw [hu]
    exact cleanup_loop_total hts
  · have hu : cleanup_old_cache entries = (entries, []) := by
      simp [cleanup_old_cache, if_neg hb]
    refine ⟨fun hc => absurd hc hb, ?_, ?_⟩
    · rw [hu]; exact List.Pairwise.nil
    · rw [hu]; intro d hd; cases hd

/-- C5 witness: two 300 MB files exceed the 500 MB budget; the sweep
deletes the older one and the newer survives at 300 MB, under the
419430400-byte low-water mark. -/
theorem C5_cleanup_low_water_oldest_first_witness :
    max_disk_bytes < total_size [⟨1, 300000000, 5⟩, ⟨2, 300000000, 10⟩] ∧
    total_size (cleanup_old_cache [⟨1, 300000000, 5⟩, ⟨2, 300000000, 10⟩]).1 ≤
      max_disk_bytes * 80 / 100 ∧
    (⟨1, 300000000, 5⟩ : DiskEntry) ∈
      (cleanup_old_cache [⟨1, 300000000, 5⟩, ⟨2, 300000000, 10⟩]).2 ∧
    (⟨2, 300000000, 10⟩ : DiskEntry) ∈
      (cleanup_old_cache [⟨1, 300000000, 5⟩, ⟨2, 300000000, 10⟩]).1 ∧
    (5 : Nat) ≤ 10 :=
  ⟨by decide,
    (C5_cleanup_low_water_oldest_first [⟨1, 300000000, 5⟩, ⟨2, 300000000, 10⟩]).1
      (by decide),
    by decide, by decide,
    (C5_cleanup_low_water_oldest_first [⟨1, 300000000, 5⟩, ⟨2, 300000000, 10⟩]).2.2
      ⟨1, 300000000, 5⟩ (by decide) ⟨2, 300000000, 10⟩ (by decide)⟩

/-- C6 counterexample: a cover-fetch unit whose fetch fails sends no
terminal event at all, not exactly one. -/
theorem C6_cover_failure_silent_cex :
    cover_loader_events (V := Nat) "m1" none = [] ∧
    (cover_loader_events (V := Nat) "m1" none).length ≠ 1 :=
  ⟨rfl, by decide⟩

/-- C6 amended: every spawned unit sends at most one terminal event per
requested resource, in every branch; the user-visible units (page-URL
resolution, page-image fetch, search) send exactly one event in every
branch, while cover, chapter-list, thumbnail and preload units send one on
success and none on their silent-failure branch. -/
theorem C6_terminal_event_counts :
    (∀ (manga_id : String) (fetched : Option Nat),
      (cover_loader_events manga_id fetched).length ≤ 1) ∧
    (∀ res : Option (List Chapter),
      (chapters_loader_events (V := Nat) res).length ≤ 1) ∧
    (∀ (chapter_id : String) (fetched : Option Nat),
      (chapter_thumbnail_loader_events chapter_id fetched).length ≤ 1) ∧
    (∀ (chapters : List Chapter) (thumb : String → Option Nat),
      (chapter_thumbnails_preloader_events chapters thumb).length ≤ chapters.length) ∧
    (∀ cached fetched : Option (List String),
      (page_urls_loader_events (V := Nat) cached fetched).length = 1) ∧
    (∀ (cached : Option Nat) (fetch : Nat → Option Nat),
      (spawn_page_image_loader cached fetch).1.length = 1) ∧
    (∀ (page_url : String) (has : Bool) (fetched : Option Nat),
      (page_preloader_events page_url has fetched).length ≤ 1) ∧
    (∀ res : Option (List Manga), (search_events (V := Nat) res).length = 1) := by
  refine ⟨?_, ?_, ?_, ?_, ?_, ?_, ?_, ?_⟩
  · intro manga_id fetched
    cases fetched <;> simp [cover_loader_events]
  · intro res
    cases res <;> simp [chapters_loader_events]
  · intro chapter_id fetched
    cases fetched <;> simp [chapter_thumbnail_loader_events]
  · intro chapters thumb
    induction chapters with
    | nil => simp [chapter_thumbnails_preloader_events]
    | cons c rest ih =>
        have hc : (chapter_thumbnail_sweep_item (V := Nat) thumb c).length ≤ 1 := by
          unfold chapter_thumbnail_sweep_item
          by_cases h : c.external_url.isSome
          · simp [h]
          · simp only [if_neg h]
            cases thumb c.id <;> simp
        have hstep : chapter_thumbnails_preloader_events (c :: rest) thumb =
            chapter_thumbnail_sweep_item thumb c ++
              chapter_thumbnails_preloader_events rest thumb := by
          simp [chapter_thumbnails_preloader_events]
        rw [hstep, List.length_append, List.length_cons]
        omega
  · intro cached fetched
    cases cached with
    | some urls => rfl
    | none =>
        cases fetched with
        | some urls =>
            by_cases h : urls.isEmpty <;>
              simp [page_urls_loader_events, h]
        | none => rfl
  · intro cached fetch
    cases cached with
    | some image => rfl
    | none => exact page_image_attempts_length fetch _
  · intro page_url has fetched
    unfold page_preloader_events
    by_cases h : has
    · simp [h]
    · simp only [if_neg h]
      cases fetched <;> simp
  · intro res
    cases res <;> simp [search_events]

/-- C7: on page list [a, b, c, d, e] at page 0 with window 3, the
scheduler spawns preloads exactly for b, c, d and not e; when the preload
of b completes (b leaves the pending set) and the scheduler re-runs from
b's list position, it spawns exactly e, skipping the still-pending c and
d. -/
theorem C7_preload_window_frontier :
    (preload_upcoming_pages ["a", "b", "c", "d", "e"] 0 []).2 = ["b", "c", "d"] ∧
    "e" ∉ (preload_upcoming_pages ["a", "b", "c", "d", "e"] 0 []).2 ∧
    ["a", "b", "c", "d", "e"].findIdx (fun u => u = "b") = 1 ∧
    (preload_upcoming_pages ["a", "b", "c", "d", "e"]
      (["a", "b", "c", "d", "e"].findIdx (fun u => u = "b"))
      ((preload_upcoming_pages ["a", "b", "c", "d", "e"] 0 []).1.filter
        (fun k => k ≠ "b"))).2 = ["e"] := by
  refine ⟨by decide, by decide, by decide, by decide⟩

/-- C8 counterexample: typing o, waiting 350 ms (so "o" dispatches), then
typing n, with the results of the first search arriving only after n's
quiescence window has expired: the expiring tick clears the debounce while
searching is still set, the "on" dispatch is dropped, and only one search
is ever dispatched instead of the claimed two. -/
theorem C8_second_search_dropped_cex :
    (run_search [(0, LoopArm.key 'o'), (350, LoopArm.tick), (400, LoopArm.key 'n'),
      (700, LoopArm.tick), (800, LoopArm.results), (1100, LoopArm.tick),
      (2000, LoopArm.tick)] search_app_start).dispatched = ["o"] ∧
    (run_search [(0, LoopArm.key 'o'), (350, LoopArm.tick), (400, LoopArm.key 'n'),
      (700, LoopArm.tick), (800, LoopArm.results), (1100, LoopArm.tick),
      (2000, LoopArm.tick)] search_app_start).dispatched ≠ ["o", "on"] := by
  refine ⟨by decide, by decide⟩

/-- C8 amended: a burst o, n, e inside the quiescence window dispatches
exactly one search, for "one"; typing o, waiting over 300 ms, then n
dispatches "o" and then "on" provided the first search's results are
consumed before n's timer expires (otherwise the pending dispatch is
dropped); and in general a search is dispatched only by a tick whose timer
is at least 300 ms old, with a nonempty query, no search in flight, and a
query differing from the last dispatched one. -/
theorem C8_debounce_behaviour :
    (run_search [(0, LoopArm.key 'o'), (100, LoopArm.key 'n'), (200, LoopArm.key 'e'),
      (250, LoopArm.tick), (500, LoopArm.tick), (520, LoopArm.results),
      (900, LoopArm.tick), (1200, LoopArm.tick)] search_app_start).dispatched =
      ["one"] ∧
    (run_search [(0, LoopArm.key 'o'), (300, LoopArm.tick), (400, LoopArm.key 'n'),
      (450, LoopArm.results), (750, LoopArm.tick)] search_app_start).dispatched =
      ["o", "on"] ∧
    (∀ (s : SearchApp) (now : Nat),
      (debounce_check s now).dispatched = s.dispatched ∨
      (∃ t0, s.search_debounce = some t0 ∧ DEBOUNCE_MS ≤ now - t0 ∧
        s.search_query ≠ "" ∧ s.searching = false ∧
        s.search_query ≠ s.last_search_query ∧
        (debounce_check s now).dispatched = s.dispatched ++ [s.search_query])) := by
  refine ⟨by decide, by decide, ?_⟩
  intro s now
  cases hd : s.search_debounce with
  | none =>
      refine Or.inl ?_
      unfold debounce_check
      rw [hd]
  | some t0 =>
      have hred : debounce_check s now = debounce_fire s t0 now := by
        unfold debounce_check
        rw [hd]
      rw [hred]
      unfold debounce_fire
      by_cases he : DEBOUNCE_MS ≤ now - t0
      · rw [if_pos he]
        by_cases hc : s.search_query ≠ "" ∧ s.searching = false ∧
            s.search_query ≠ s.last_search_query
        · rw [if_pos hc]
          exact Or.inr ⟨t0, rfl, he, hc.1, hc.2.1, hc.2.2, rfl⟩
        · rw [if_neg hc]
          exact Or.inl rfl
      · rw [if_neg he]
        exact Or.inl rfl

/-- C9: going back from Reader only changes the view; going back from
MangaDetail resets the selected manga and the chapter list -- so the reset
happens exactly once across Reader to MangaDetail to Home.  Opening any
manga and entering a chapter afterwards yields a reader whose page
position, URL list, image and loading flag are fresh, whose rendered pane
is the loading screen whatever the previous session held, and any error
message the pane ever shows afterwards was produced by an event that
followed the reopening. -/
theorem C9_back_reset_and_fresh_reader :
    (∀ s : App Nat, s.view = View.reader →
      go_back s = { s with view := View.manga_detail }) ∧
    (∀ s : App Nat, s.view = View.manga_detail →
      (go_back s).view = View.home ∧ (go_back s).selected_manga = none ∧
      (go_back s).chapters = [] ∧ (go_back s).reader = s.reader) ∧
    (∀ (s t : App Nat) (m : Manga) (cs : List Chapter) (idx : Nat),
      (open_reader (set_chapters (open_manga s m) cs) idx).reader.current_page = 0 ∧
      (open_reader (set_chapters (open_manga s m) cs) idx).reader.page_urls = [] ∧
      (open_reader (set_chapters (open_manga s m) cs) idx).reader.page_image = none ∧
      (open_reader (set_chapters (open_manga s m) cs) idx).reader.loading = true ∧
      draw_reader (open_reader (set_chapters (open_manga s m) cs) idx).reader =
        ReaderDisplay.loading_screen ∧
      reader_header (open_reader (set_chapters (open_manga s m) cs) idx).reader =
        reader_header (open_reader (set_chapters (open_manga t m) cs) idx).reader) ∧
    (∀ (s : App Nat) (m : Manga) (cs : List Chapter) (idx : Nat)
      (evs : List (ReaderEv Nat)) (msg : String),
      draw_reader (run_reader evs
        (open_reader (set_chapters (open_manga s m) cs) idx)).reader =
        ReaderDisplay.error_screen msg →
      msg ∈ error_msgs_of evs) := by
  refine ⟨?_, ?_, ?_, ?_⟩
  · intro s h
    unfold go_back
    rw [h]
  · intro s h
    unfold go_back
    rw [h]
    exact ⟨rfl, rfl, rfl, rfl⟩
  · intro s t m cs idx
    exact ⟨rfl, rfl, rfl, rfl, rfl, rfl⟩
  · intro s m cs idx evs msg hdraw
    have hacc : error_accounted
        (open_reader (set_chapters (open_manga s m) cs) idx) [] := by
      intro m2 h1 h2
      simp only [open_reader] at h1
      cases h1
    have hrun := run_reader_error_accounted evs _ [] hacc
    obtain ⟨hlf, herr⟩ := draw_reader_error_inversion hdraw
    have hm := hrun msg hlf herr
    simpa using hm

/-- C9 witness: from a live reader session the back transitions behave as
stated, and after reopening a fresh manga the only error the pane shows is
the one produced by the post-reopen failure event. -/
theorem C9_back_reset_and_fresh_reader_witness :
    two_page_sim.app.view = View.reader ∧
    go_back two_page_sim.app = { two_page_sim.app with view := View.manga_detail } ∧
    (go_back (go_back two_page_sim.app)).selected_manga = none ∧
    draw_reader (run_reader [ReaderEv.ev_page_image_load_failed]
      (open_reader (set_chapters (open_manga two_page_sim.app ⟨"m2", "c2"⟩)
        [⟨"ch9", none⟩]) 0)).reader = ReaderDisplay.error_screen PAGE_IMAGE_ERROR ∧
    PAGE_IMAGE_ERROR ∈
      error_msgs_of [ReaderEv.ev_page_image_load_failed (V := Nat)] :=
  ⟨by decide,
    C9_back_reset_and_fresh_reader.1 two_page_sim.app (by decide),
    (C9_back_reset_and_fresh_reader.2.1 (go_back two_page_sim.app) (by decide)).2.1,
    by decide,
    C9_back_reset_and_fresh_reader.2.2.2 two_page_sim.app ⟨"m2", "c2"⟩
      [⟨"ch9", none⟩] 0 [ReaderEv.ev_page_image_load_failed] PAGE_IMAGE_ERROR
      (by decide)⟩

/-- C10: in every state reachable from the empty cache the access-order
sequence is duplicate-free and enumerates exactly the key set of the page
map; a single get or put preserves the correspondence from any state
satisfying it, covering the eviction and disk-promotion paths. -/
theorem C10_access_order_matches_pages :
    (∀ (s : PageCacheInner Nat) (op : CacheOp Nat),
      cache_inv s → cache_inv (apply_op s op)) ∧
    (∀ ops : List (CacheOp Nat),
      (run_ops ops (empty_cache Nat)).access_order.Nodup ∧
      (run_ops ops (empty_cache Nat)).access_order.Perm
        (map_keys (run_ops ops (empty_cache Nat)).pages)) := by
  constructor
  · intro s op h
    exact apply_op_inv h op
  · intro ops
    have h := run_ops_inv ops (empty_cache_inv Nat)
    exact ⟨h.1, h.2.2.1⟩

/-- C10 witness: the invariant holds for the empty cache and is carried
over one insertion. -/
theorem C10_access_order_matches_pages_witness :
    cache_inv (empty_cache Nat) ∧
    cache_inv (apply_op (empty_cache Nat) (CacheOp.put "a" 3)) ∧
    (run_ops [CacheOp.put "a" 3, CacheOp.get "a"] (empty_cache Nat)).access_order.Nodup :=
  ⟨by decide,
    C10_access_order_matches_pages.1 (empty_cache Nat) (CacheOp.put "a" 3) (by decide),
    (C10_access_order_matches_pages.2 [CacheOp.put "a" 3, CacheOp.get "a"]).1⟩

end Tachiyomi
